import Mathlib

/-!
# Verification of the rive-cpp math core: `Mat2D::findMaxScale` and the SIMD layer

We shallowly embed the numeric core of the repository:

* IEEE-754 single-precision values are idealized as elements of a linear
  ordered field extended with `inf`, `ninf` (the two infinities) and `nan`.
  Finite arithmetic is exact (rounding is not modelled), but overflow is:
  any finite result whose magnitude exceeds the largest finite float
  (`FMAX = 2^128 - 2^104`) becomes the corresponding infinity, as IEEE
  overflow does.  NaN propagation, comparisons involving NaN, and
  arithmetic on infinities follow the IEEE rules.
* The SIMD layer (`simd.hpp`) is instantiated at `ℚ` (every finite float
  is a rational, and the min/max/clamp/select operations do not round),
  keeping it fully decidable.
* The matrix scale-analysis layer needs square roots, so it is
  instantiated at `ℝ`.
-/

namespace Rive

/-- A float value: a finite value of the field `α`, one of the two
infinities, or NaN.  Signed zero is not distinguished. -/
inductive FV (α : Type) where
  | fin (x : α)
  | inf
  | ninf
  | nan
deriving DecidableEq

variable {α : Type} [LinearOrderedField α]

/-- The largest finite IEEE single-precision value, `(2^24 - 1) * 2^104`. -/
def FMAX : α := 340282346638528859811704183484516925440

/-- Wrap an exact finite result into a float value, overflowing to the
infinities beyond the finite float range. -/
def clampF (x : α) : FV α :=
  if FMAX < x then FV.inf else if x < -FMAX then FV.ninf else FV.fin x

/-- IEEE negation. -/
def FV.neg : FV α → FV α
  | .fin x => .fin (-x)
  | .inf => .ninf
  | .ninf => .inf
  | .nan => .nan

/-- IEEE addition (exact on finite values, except for overflow). -/
def FV.add : FV α → FV α → FV α
  | .nan, _ => .nan
  | _, .nan => .nan
  | .fin x, .fin y => clampF (x + y)
  | .fin _, .inf => .inf
  | .fin _, .ninf => .ninf
  | .inf, .fin _ => .inf
  | .ninf, .fin _ => .ninf
  | .inf, .inf => .inf
  | .ninf, .ninf => .ninf
  | .inf, .ninf => .nan
  | .ninf, .inf => .nan

/-- IEEE subtraction, `a - b = a + (-b)`. -/
def FV.sub (a b : FV α) : FV α := FV.add a (FV.neg b)

/-- IEEE multiplication (exact on finite values, except for overflow). -/
def FV.mul : FV α → FV α → FV α
  | .nan, _ => .nan
  | _, .nan => .nan
  | .fin x, .fin y => clampF (x * y)
  | .fin x, .inf => if x = 0 then .nan else if 0 < x then .inf else .ninf
  | .fin x, .ninf => if x = 0 then .nan else if 0 < x then .ninf else .inf
  | .inf, .fin y => if y = 0 then .nan else if 0 < y then .inf else .ninf
  | .ninf, .fin y => if y = 0 then .nan else if 0 < y then .ninf else .inf
  | .inf, .inf => .inf
  | .ninf, .ninf => .inf
  | .inf, .ninf => .ninf
  | .ninf, .inf => .ninf

/-- The IEEE strict comparison `<`: any comparison involving NaN is false. -/
def FV.lt : FV α → FV α → Bool
  | .nan, _ => false
  | _, .nan => false
  | .fin x, .fin y => decide (x < y)
  | .fin _, .inf => true
  | .fin _, .ninf => false
  | .inf, _ => false
  | .ninf, .fin _ => true
  | .ninf, .inf => true
  | .ninf, .ninf => false

/-- Self-inequality NaN test (`x != x` in the source). -/
def FV.isNaN : FV α → Bool
  | .nan => true
  | _ => false

/-- Finiteness test. -/
def FV.isFinite : FV α → Bool
  | .fin _ => true
  | _ => false

/-! ## The SIMD layer (`simd.hpp`), instantiated at `ℚ`

The source defines each operation generically over clang extended
vectors; we model a float vector of width `n` as `Fin n → FV ℚ` and the
`int32_t` boolean mask vectors as `Fin n → Bool` (`true` models the
all-bits-set lane `~0`).  Each definition below follows the portable
(non-builtin) code path of `simd.hpp`, which the header requires to be
behaviorally identical to the intrinsic paths. -/

namespace simd

/-- A float vector of width `n` (`gvec<float, N>`). -/
def gvec (n : ℕ) := Fin n → FV ℚ

/-- A boolean mask vector (`gvec<int32_t, N>`); `true` models `~0`. -/
def bvec (n : ℕ) := Fin n → Bool

/-- Lane-wise `isnan(x)`, via self-inequality as in the source. -/
def isnan {n : ℕ} (x : gvec n) : bvec n := fun i => (x i).isNaN

/-- The lane-wise vector comparison `a < b`. -/
def ltv {n : ℕ} (a b : gvec n) : bvec n := fun i => FV.lt (a i) (b i)

/-- The lane-wise mask disjunction `a || b`. -/
def orv {n : ℕ} (a b : bvec n) : bvec n := fun i => a i || b i

/-- `if_then_else(_if, _then, _else)`: per-lane select. -/
def if_then_else {n : ℕ} (c : bvec n) (t e : gvec n) : gvec n :=
  fun i => if c i then t i else e i

/-- `simd::min`: `if_then_else(b < a || isnan(a), b, a)`. -/
def min {n : ℕ} (a b : gvec n) : gvec n :=
  if_then_else (orv (ltv b a) (isnan a)) b a

/-- `simd::max`: `if_then_else(a < b || isnan(a), b, a)`. -/
def max {n : ℕ} (a b : gvec n) : gvec n :=
  if_then_else (orv (ltv a b) (isnan a)) b a

/-- `simd::clamp(x, lo, hi) = min(max(lo, x), hi)`. -/
def clamp {n : ℕ} (x lo hi : gvec n) : gvec n :=
  simd.min (simd.max lo x) hi

/-- `simd::abs` on float vectors: `if_then_else(x < 0, -x, x)`. -/
def absF {n : ℕ} (x : gvec n) : gvec n :=
  if_then_else (ltv x (fun _ => FV.fin 0)) (fun i => (x i).neg) x

/-- `simd::mix(a, b, t) = (b - a) * t + a` with a scalar interpolant `t`. -/
def mix {n : ℕ} (a b : gvec n) (t : FV ℚ) : gvec n :=
  fun i => FV.add (FV.mul (FV.sub (b i) (a i)) t) (a i)

/-- An `int32_t` vector; lanes carry their signed mathematical value. -/
def ivec (n : ℕ) := Fin n → ℤ

/-- Two's-complement reduction of an integer into `[-2^31, 2^31)`. -/
def wrap32 (z : ℤ) : ℤ := (z + 2 ^ 31) % 2 ^ 32 - 2 ^ 31

/-- `simd::abs` on `int32_t` vectors: `if_then_else(x < 0, -x, x)`, where
vector negation wraps in two's complement. -/
def absI {n : ℕ} (x : ivec n) : ivec n :=
  fun i => if x i < 0 then wrap32 (-(x i)) else x i

end simd

/-- The scalar interpolation template from `math_types.hpp`:
`lerp(a, b, t) = a + (b - a) * t`, at lane type float. -/
def lerp (a b t : FV ℚ) : FV ℚ := FV.add a (FV.mul (FV.sub b a) t)

/-- `math::EPSILON = 1.f / (1 << 12)` from `math_types.hpp`. -/
noncomputable def EPSILON : ℝ := 1 / 4096

/-- `math::nearly_zero` from `math_types.hpp`. -/
def nearly_zero (a tolerance : ℝ) : Prop := |a| ≤ tolerance

/-- `math::nearly_equal` from `math_types.hpp`. -/
def nearly_equal (a b tolerance : ℝ) : Prop := nearly_zero (b - a) tolerance

/-! ## The matrix scale-analysis layer

Modelled from the spec: the implementation of `Mat2D` (`mat2d.cpp` /
`mat2d.hpp`) is not among the provided sources, only its test file is, so
the type and its operations are modelled from the spec.  A 2x3 affine
matrix is six floats `(a, b, c, d, tx, ty)` representing the linear map
`[[a, c], [b, d]]` plus the translation `(tx, ty)`. -/

/-- Modelled from the spec: the 2x3 affine matrix type `Mat2D`, six float
scalars `(a, b, c, d, tx, ty)`; the linear map is `[[a, c], [b, d]]`. -/
structure Mat2D where
  a : FV ℝ
  b : FV ℝ
  c : FV ℝ
  d : FV ℝ
  tx : FV ℝ
  ty : FV ℝ

/-- Modelled from the spec: the default-constructed identity matrix. -/
def Mat2D.identity : Mat2D :=
  ⟨.fin 1, .fin 0, .fin 0, .fin 1, .fin 0, .fin 0⟩

/-- Modelled from the spec: `Mat2D::fromScale(sx, sy)`. -/
def Mat2D.fromScale (sx sy : ℝ) : Mat2D :=
  ⟨.fin sx, .fin 0, .fin 0, .fin sy, .fin 0, .fin 0⟩

/-- Modelled from the spec: `Mat2D::fromRotation(theta)`, the rotation by
`theta` radians (idealized: the exact cosine and sine). -/
noncomputable def Mat2D.fromRotation (theta : ℝ) : Mat2D :=
  ⟨.fin (Real.cos theta), .fin (Real.sin theta),
   .fin (-Real.sin theta), .fin (Real.cos theta), .fin 0, .fin 0⟩

/-- Modelled from the spec: `Mat2D::fromTranslate(x, y)`. -/
def Mat2D.fromTranslate (x y : ℝ) : Mat2D :=
  ⟨.fin 1, .fin 0, .fin 0, .fin 1, .fin x, .fin y⟩

/-- Modelled from the spec: affine composition `m * n` (apply `n`, then
`m`): the linear parts multiply and the translation of `n` is mapped
through `m`. -/
noncomputable def Mat2D.mul (m n : Mat2D) : Mat2D :=
  ⟨FV.add (FV.mul m.a n.a) (FV.mul m.c n.b),
   FV.add (FV.mul m.b n.a) (FV.mul m.d n.b),
   FV.add (FV.mul m.a n.c) (FV.mul m.c n.d),
   FV.add (FV.mul m.b n.c) (FV.mul m.d n.d),
   FV.add (FV.add (FV.mul m.a n.tx) (FV.mul m.c n.ty)) m.tx,
   FV.add (FV.add (FV.mul m.b n.tx) (FV.mul m.d n.ty)) m.ty⟩

/-- Modelled from the spec (step 1 of `findMaxScale`): the entry `S[0][0]
= a^2 + b^2` of the symmetric matrix `S = M^T * M` of the linear part. -/
noncomputable def Mat2D.s00 (m : Mat2D) : FV ℝ :=
  FV.add (FV.mul m.a m.a) (FV.mul m.b m.b)

/-- Modelled from the spec (step 1 of `findMaxScale`): the off-diagonal
entry `S[0][1] = S[1][0] = a*c + b*d` of `S = M^T * M`. -/
noncomputable def Mat2D.s01 (m : Mat2D) : FV ℝ :=
  FV.add (FV.mul m.a m.c) (FV.mul m.b m.d)

/-- Modelled from the spec (step 1 of `findMaxScale`): the entry `S[1][1]
= c^2 + d^2` of `S = M^T * M`. -/
noncomputable def Mat2D.s11 (m : Mat2D) : FV ℝ :=
  FV.add (FV.mul m.c m.c) (FV.mul m.d m.d)

/-- Modelled from the spec (step 2 of `findMaxScale`): the trace
`T = S00 + S11`. -/
noncomputable def Mat2D.traceS (m : Mat2D) : FV ℝ := FV.add m.s00 m.s11

/-- Modelled from the spec (step 2 of `findMaxScale`): the determinant
`det(S) = S00 * S11 - S01^2`. -/
noncomputable def Mat2D.detS (m : Mat2D) : FV ℝ :=
  FV.sub (FV.mul m.s00 m.s11) (FV.mul m.s01 m.s01)

/-- Modelled from the spec (step 2 of `findMaxScale`): the discriminant
`T^2 - 4 * det(S)`. -/
noncomputable def Mat2D.discS (m : Mat2D) : FV ℝ :=
  FV.sub (FV.mul m.traceS m.traceS) (FV.mul (FV.fin 4) m.detS)

/-- IEEE square root on the float model: `sqrt` of a negative value (or
of NaN) is NaN, `sqrt(inf) = inf`. -/
noncomputable def sqrtF : FV ℝ → FV ℝ
  | .nan => .nan
  | .ninf => .nan
  | .inf => .inf
  | .fin x => if x < 0 then .nan else .fin (Real.sqrt x)

/-- Halving a float value (`(...) / 2`; never overflows). -/
noncomputable def halfF : FV ℝ → FV ℝ
  | .fin x => .fin (x / 2)
  | .inf => .inf
  | .ninf => .ninf
  | .nan => .nan

/-- Modelled from the spec (step 2 of `findMaxScale`): the larger
eigenvalue of `S`, `(T + sqrt(T^2 - 4 det S)) / 2` — the square of the
maximum scale. -/
noncomputable def Mat2D.eigMax (m : Mat2D) : FV ℝ :=
  halfF (FV.add m.traceS (sqrtF m.discS))

/-- Modelled from the spec (steps 3-4): `Mat2D::findMaxScale` returns the
non-negative square root of the larger eigenvalue of `M^T * M`, clamped
to `0` when the computed eigenvalue is negative or non-finite (the
overflow/degeneracy fallback). -/
noncomputable def Mat2D.findMaxScale (m : Mat2D) : FV ℝ :=
  match m.eigMax with
  | .fin x => if x < 0 then .fin 0 else .fin (Real.sqrt x)
  | _ => .fin 0

/-- The closed form of the larger eigenvalue of `M^T M` for finite
entries, used to state evaluation lemmas:
`((a^2+b^2) + (c^2+d^2) + sqrt(((a^2+b^2) - (c^2+d^2))^2 + 4 (ac+bd)^2)) / 2`. -/
noncomputable def lamMax (a b c d : ℝ) : ℝ :=
  ((a ^ 2 + b ^ 2) + (c ^ 2 + d ^ 2) +
    Real.sqrt (((a ^ 2 + b ^ 2) - (c ^ 2 + d ^ 2)) ^ 2 + 4 * (a * c + b * d) ^ 2)) / 2

/-! ## Evaluation lemmas for the float model -/

theorem clampF_eq {x : α} (h : |x| ≤ FMAX) : clampF x = FV.fin x := by
  obtain ⟨h1, h2⟩ := abs_le.mp h
  rw [clampF, if_neg (not_lt.mpr h2), if_neg (not_lt.mpr h1)]

theorem clampF_inf {x : α} (h : FMAX < x) : clampF x = FV.inf := by
  rw [clampF, if_pos h]

theorem mulFF {x y : α} (h : |x * y| ≤ FMAX) :
    FV.mul (FV.fin x) (FV.fin y) = FV.fin (x * y) := by
  show clampF (x * y) = _
  exact clampF_eq h

theorem mulFF_inf {x y : α} (h : FMAX < x * y) :
    FV.mul (FV.fin x) (FV.fin y) = FV.inf := by
  show clampF (x * y) = _
  exact clampF_inf h

theorem addFF {x y : α} (h : |x + y| ≤ FMAX) :
    FV.add (FV.fin x) (FV.fin y) = FV.fin (x + y) := by
  show clampF (x + y) = _
  exact clampF_eq h

theorem subFF {x y : α} (h : |x - y| ≤ FMAX) :
    FV.sub (FV.fin x) (FV.fin y) = FV.fin (x - y) := by
  show clampF (x + -y) = _
  rw [← sub_eq_add_neg]
  exact clampF_eq h

theorem mul_fin_inf {x : α} (h : 0 < x) : FV.mul (FV.fin x) FV.inf = FV.inf := by
  show (if x = 0 then _ else if 0 < x then _ else _) = _
  rw [if_neg h.ne', if_pos h]

theorem sqrtF_fin {x : ℝ} (h : 0 ≤ x) : sqrtF (FV.fin x) = FV.fin (Real.sqrt x) := by
  show (if x < 0 then _ else _) = _
  rw [if_neg (not_lt.mpr h)]

theorem sqrt_le_of_sq {x y : ℝ} (hy : 0 ≤ y) (h : x ≤ y ^ 2) : Real.sqrt x ≤ y :=
  calc Real.sqrt x ≤ Real.sqrt (y ^ 2) := Real.sqrt_le_sqrt h
  _ = y := Real.sqrt_sq hy

theorem le_sqrt_of_sq {x y : ℝ} (hx : 0 ≤ x) (h : x ^ 2 ≤ y) : x ≤ Real.sqrt y :=
  calc x = Real.sqrt (x ^ 2) := (Real.sqrt_sq hx).symm
  _ ≤ Real.sqrt y := Real.sqrt_le_sqrt h

theorem abs_mul_bound {x y B C : α} (hx : |x| ≤ B) (hy : |y| ≤ C) : |x * y| ≤ B * C := by
  rw [abs_mul]
  exact mul_le_mul hx hy (abs_nonneg y) ((abs_nonneg x).trans hx)

theorem abs_add_bound {x y B C : α} (hx : |x| ≤ B) (hy : |y| ≤ C) : |x + y| ≤ B + C :=
  (abs_add x y).trans (add_le_add hx hy)

theorem abs_sub_bound {x y B C : α} (hx : |x| ≤ B) (hy : |y| ≤ C) : |x - y| ≤ B + C :=
  (abs_sub x y).trans (add_le_add hx hy)

theorem findMaxScale_of_eig_fin {m : Mat2D} {x : ℝ} (h : m.eigMax = FV.fin x)
    (hx : 0 ≤ x) : m.findMaxScale = FV.fin (Real.sqrt x) := by
  rw [Mat2D.findMaxScale, h]
  show (if x < 0 then _ else _) = _
  rw [if_neg (not_lt.mpr hx)]

theorem findMaxScale_of_eig_nan {m : Mat2D} (h : m.eigMax = FV.nan) :
    m.findMaxScale = FV.fin 0 := by
  rw [Mat2D.findMaxScale, h]

/-- Central reduction: on a matrix whose linear entries are finite with
magnitude at most `10^9`, no intermediate of the `findMaxScale`
computation overflows, and the result is the square root of the closed
form `lamMax`.  The translation column is arbitrary (it is never read). -/
theorem findMaxScale_fin (a b c d : ℝ) (tx ty : FV ℝ)
    (ha : |a| ≤ 10 ^ 9) (hb : |b| ≤ 10 ^ 9) (hc : |c| ≤ 10 ^ 9) (hd : |d| ≤ 10 ^ 9) :
    Mat2D.findMaxScale ⟨.fin a, .fin b, .fin c, .fin d, tx, ty⟩ =
      FV.fin (Real.sqrt (lamMax a b c d)) := by
  set m : Mat2D := ⟨.fin a, .fin b, .fin c, .fin d, tx, ty⟩ with hm
  -- magnitude bounds for every intermediate quantity
  have hAa := abs_mul_bound ha ha
  have hBb := abs_mul_bound hb hb
  have hCc := abs_mul_bound hc hc
  have hDd := abs_mul_bound hd hd
  have hAc := abs_mul_bound ha hc
  have hBd := abs_mul_bound hb hd
  have hA := abs_add_bound hAa hBb
  have hB := abs_add_bound hAc hBd
  have hC := abs_add_bound hCc hDd
  have hT := abs_add_bound hA hC
  have hAC := abs_mul_bound hA hC
  have hBB := abs_mul_bound hB hB
  have hDet := abs_sub_bound hAC hBB
  have hTT := abs_mul_bound hT hT
  have h4 : |(4 : ℝ)| ≤ 4 := by norm_num
  have h4Det := abs_mul_bound h4 hDet
  have hDisc := abs_sub_bound hTT h4Det
  have hFM : ∀ x : ℝ, |x| ≤ 10 ^ 9 * 10 ^ 9 + 10 ^ 9 * 10 ^ 9 → |x| ≤ FMAX := by
    intro x h
    refine h.trans ?_
    rw [FMAX]; norm_num
  have hFM2 : ∀ x : ℝ, |x| ≤ (10 ^ 9 * 10 ^ 9 + 10 ^ 9 * 10 ^ 9) * (10 ^ 9 * 10 ^ 9 + 10 ^ 9 * 10 ^ 9) * 4 + ((10 ^ 9 * 10 ^ 9 + 10 ^ 9 * 10 ^ 9) * (10 ^ 9 * 10 ^ 9 + 10 ^ 9 * 10 ^ 9) + (10 ^ 9 * 10 ^ 9 + 10 ^ 9 * 10 ^ 9) * (10 ^ 9 * 10 ^ 9 + 10 ^ 9 * 10 ^ 9)) * 5 → |x| ≤ FMAX := by
    intro x h
    refine h.trans ?_
    rw [FMAX]; norm_num
  have key : ∀ {x : ℝ} {N : ℝ}, |x| ≤ N →
      N ≤ (10 ^ 9 * 10 ^ 9 + 10 ^ 9 * 10 ^ 9) * (10 ^ 9 * 10 ^ 9 + 10 ^ 9 * 10 ^ 9) * 4 + ((10 ^ 9 * 10 ^ 9 + 10 ^ 9 * 10 ^ 9) * (10 ^ 9 * 10 ^ 9 + 10 ^ 9 * 10 ^ 9) + (10 ^ 9 * 10 ^ 9 + 10 ^ 9 * 10 ^ 9) * (10 ^ 9 * 10 ^ 9 + 10 ^ 9 * 10 ^ 9)) * 5 → |x| ≤ FMAX :=
    fun h1 h2 => hFM2 _ (h1.trans h2)
  -- step 1: the entries of S = M^T M
  have e00 : m.s00 = FV.fin (a * a + b * b) := by
    show FV.add (FV.mul (.fin a) (.fin a)) (FV.mul (.fin b) (.fin b)) = _
    rw [mulFF (key hAa (by norm_num)), mulFF (key hBb (by norm_num))]
    exact addFF (key hA (by norm_num))
  have e01 : m.s01 = FV.fin (a * c + b * d) := by
    show FV.add (FV.mul (.fin a) (.fin c)) (FV.mul (.fin b) (.fin d)) = _
    rw [mulFF (key hAc (by norm_num)), mulFF (key hBd (by norm_num))]
    exact addFF (key hB (by norm_num))
  have e11 : m.s11 = FV.fin (c * c + d * d) := by
    show FV.add (FV.mul (.fin c) (.fin c)) (FV.mul (.fin d) (.fin d)) = _
    rw [mulFF (key hCc (by norm_num)), mulFF (key hDd (by norm_num))]
    exact addFF (key hC (by norm_num))
  -- step 2: trace, determinant, discriminant
  have eT : m.traceS = FV.fin ((a * a + b * b) + (c * c + d * d)) := by
    rw [Mat2D.traceS, e00, e11]
    exact addFF (key hT (by norm_num))
  have eDet : m.detS = FV.fin ((a * a + b * b) * (c * c + d * d) - (a * c + b * d) * (a * c + b * d)) := by
    rw [Mat2D.detS, e00, e01, e11]
    rw [mulFF (key hAC (by norm_num)), mulFF (key hBB (by norm_num))]
    exact subFF (key hDet (by norm_num))
  have eDisc : m.discS = FV.fin (((a * a + b * b) - (c * c + d * d)) ^ 2 + 4 * (a * c + b * d) ^ 2) := by
    rw [Mat2D.discS, eT, eDet]
    rw [mulFF (key hTT (by norm_num)), mulFF (key h4Det (by norm_num))]
    rw [subFF (key hDisc (by norm_num))]
    congr 1
    ring
  -- the discriminant is a sum of squares
  have hdiscnn : (0 : ℝ) ≤ ((a * a + b * b) - (c * c + d * d)) ^ 2 + 4 * (a * c + b * d) ^ 2 := by
    positivity
  have hACd : |(a * a + b * b) - (c * c + d * d)| ≤ 10 ^ 19 := by
    refine (abs_sub_bound hA hC).trans ?_
    norm_num
  have hsq : Real.sqrt (((a * a + b * b) - (c * c + d * d)) ^ 2 + 4 * (a * c + b * d) ^ 2) ≤ 3 * 10 ^ 19 := by
    apply sqrt_le_of_sq (by norm_num)
    have h1 : ((a * a + b * b) - (c * c + d * d)) ^ 2 ≤ (10 ^ 19) ^ 2 := by
      rw [← sq_abs]
      exact pow_le_pow_left₀ (abs_nonneg _) hACd 2
    have h2 : (a * c + b * d) ^ 2 ≤ (10 ^ 19) ^ 2 := by
      rw [← sq_abs]
      refine pow_le_pow_left₀ (abs_nonneg _) (hB.trans (by norm_num)) 2
    nlinarith [h1, h2]
  have hsqnn : (0 : ℝ) ≤ Real.sqrt (((a * a + b * b) - (c * c + d * d)) ^ 2 + 4 * (a * c + b * d) ^ 2) :=
    Real.sqrt_nonneg _
  have hTnn : (0 : ℝ) ≤ (a * a + b * b) + (c * c + d * d) :=
    add_nonneg (add_nonneg (mul_self_nonneg a) (mul_self_nonneg b))
      (add_nonneg (mul_self_nonneg c) (mul_self_nonneg d))
  have eEig : m.eigMax = FV.fin (((a * a + b * b) + (c * c + d * d) +
      Real.sqrt (((a * a + b * b) - (c * c + d * d)) ^ 2 + 4 * (a * c + b * d) ^ 2)) / 2) := by
    rw [Mat2D.eigMax, eDisc, eT, sqrtF_fin hdiscnn]
    rw [addFF ?bnd]
    case bnd =>
      rw [abs_of_nonneg (add_nonneg hTnn hsqnn), FMAX]
      have := le_of_abs_le hT
      norm_num
      linarith
    rfl
  have hlamnn : (0 : ℝ) ≤ ((a * a + b * b) + (c * c + d * d) +
      Real.sqrt (((a * a + b * b) - (c * c + d * d)) ^ 2 + 4 * (a * c + b * d) ^ 2)) / 2 := by
    linarith [add_nonneg hTnn hsqnn]
  rw [findMaxScale_of_eig_fin eEig hlamnn]
  rw [lamMax]
  congr 2
  rw [show ((a : ℝ) ^ 2 + b ^ 2 - (c ^ 2 + d ^ 2)) ^ 2 + 4 * (a * c + b * d) ^ 2 =
      ((a * a + b * b) - (c * c + d * d)) ^ 2 + 4 * (a * c + b * d) ^ 2 from by ring]
  ring

/-! ## Claim C1 -/

/-- Claim C1 (amended): `findMaxScale` of the identity is exactly `1`,
and for every pure scale matrix `Scale(sx, sy)` with positive `sx`, `sy`
small enough that the intermediate computations stay within the float
range (`sx, sy <= 10^9`), `findMaxScale` returns `max(sx, sy)`; in
particular `findMaxScale(Scale(2,4)) == 4`.  (The original claim, without
the magnitude restriction, fails: for huge scale factors the squared
entries overflow and `findMaxScale` falls back to `0`.) -/
theorem findMaxScale_identity_and_scale :
    Mat2D.identity.findMaxScale = FV.fin 1 ∧
    ∀ sx sy : ℝ, 0 < sx → 0 < sy → sx ≤ 10 ^ 9 → sy ≤ 10 ^ 9 →
      (Mat2D.fromScale sx sy).findMaxScale = FV.fin (Max.max sx sy) := by
  constructor
  · have h : Mat2D.identity.findMaxScale = FV.fin (Real.sqrt (lamMax 1 0 0 1)) :=
      findMaxScale_fin 1 0 0 1 (.fin 0) (.fin 0) (by norm_num) (by norm_num)
        (by norm_num) (by norm_num)
    rw [h, lamMax]
    norm_num [Real.sqrt_one]
  · intro sx sy hsx hsy hsx9 hsy9
    have hxa : |sx| ≤ 10 ^ 9 := by rw [abs_of_pos hsx]; exact hsx9
    have hya : |sy| ≤ 10 ^ 9 := by rw [abs_of_pos hsy]; exact hsy9
    have h : (Mat2D.fromScale sx sy).findMaxScale = FV.fin (Real.sqrt (lamMax sx 0 0 sy)) :=
      findMaxScale_fin sx 0 0 sy (.fin 0) (.fin 0) hxa (by norm_num) (by norm_num) hya
    have hL : lamMax sx 0 0 sy = (sx ^ 2 + sy ^ 2 + |sx ^ 2 - sy ^ 2|) / 2 := by
      rw [lamMax]
      rw [show ((sx : ℝ) ^ 2 + 0 ^ 2 - (0 ^ 2 + sy ^ 2)) ^ 2 + 4 * (sx * 0 + 0 * sy) ^ 2 =
          (sx ^ 2 - sy ^ 2) ^ 2 from by ring]
      rw [Real.sqrt_sq_eq_abs]
      ring
    rw [h, hL]
    rcases le_total sx sy with hle | hle
    · rw [abs_of_nonpos (by nlinarith), max_eq_right hle,
        show (sx ^ 2 + sy ^ 2 + -(sx ^ 2 - sy ^ 2)) / 2 = sy ^ 2 from by ring,
        Real.sqrt_sq hsy.le]
    · rw [abs_of_nonneg (by nlinarith), max_eq_left hle,
        show (sx ^ 2 + sy ^ 2 + (sx ^ 2 - sy ^ 2)) / 2 = sx ^ 2 from by ring,
        Real.sqrt_sq hsx.le]

/-- Claim C1 counterexample: the original claim "for every pure scale
matrix with positive factors, `findMaxScale` returns the larger factor"
fails: at `Scale(10^20, 10^20)` the squared entries overflow the float
range and `findMaxScale` returns `0`, not `10^20`. -/
theorem findMaxScale_scale_overflow_cex :
    (0 : ℝ) < 10 ^ 20 ∧
    (Mat2D.fromScale (10 ^ 20) (10 ^ 20)).findMaxScale ≠
      FV.fin (Max.max (10 ^ 20) (10 ^ 20)) := by
  refine ⟨by norm_num, ?_⟩
  set m : Mat2D := Mat2D.fromScale (10 ^ 20) (10 ^ 20) with hm
  have hbig : FMAX < (10 : ℝ) ^ 20 * 10 ^ 20 := by rw [FMAX]; norm_num
  have e00 : m.s00 = FV.inf := by
    show FV.add (FV.mul (.fin (10 ^ 20)) (.fin (10 ^ 20))) (FV.mul (.fin 0) (.fin 0)) = _
    rw [mulFF_inf hbig, mulFF (x := (0 : ℝ)) (y := (0 : ℝ)) (by rw [FMAX]; norm_num)]
    rfl
  have e11 : m.s11 = FV.inf := by
    show FV.add (FV.mul (.fin 0) (.fin 0)) (FV.mul (.fin (10 ^ 20)) (.fin (10 ^ 20))) = _
    rw [mulFF_inf hbig, mulFF (x := (0 : ℝ)) (y := (0 : ℝ)) (by rw [FMAX]; norm_num)]
    rfl
  have e01 : m.s01 = FV.fin (10 ^ 20 * 0 + 0 * 10 ^ 20) := by
    show FV.add (FV.mul (.fin (10 ^ 20)) (.fin 0)) (FV.mul (.fin 0) (.fin (10 ^ 20))) = _
    rw [mulFF (by rw [FMAX]; norm_num), mulFF (by rw [FMAX]; norm_num)]
    exact addFF (by rw [FMAX]; norm_num)
  have eT : m.traceS = FV.inf := by
    rw [Mat2D.traceS, e00, e11]
    rfl
  have eDet : m.detS = FV.inf := by
    rw [Mat2D.detS, e00, e01, e11]
    rw [mulFF (by rw [FMAX]; norm_num)]
    rfl
  have eDisc : m.discS = FV.nan := by
    rw [Mat2D.discS, eT, eDet]
    rw [mul_fin_inf (by norm_num : (0 : ℝ) < 4)]
    rfl
  have eEig : m.eigMax = FV.nan := by
    rw [Mat2D.eigMax, eT, eDisc]
    rfl
  rw [findMaxScale_of_eig_nan eEig]
  simp only [ne_eq, FV.fin.injEq, max_self]
  norm_num

/-- Claim C1 witness: the amended theorem applied at `Scale(2, 4)`,
whose max scale is `4`. -/
theorem findMaxScale_identity_and_scale_witness :
    (Mat2D.fromScale 2 4).findMaxScale = FV.fin 4 := by
  have h := findMaxScale_identity_and_scale.2 2 4 (by norm_num) (by norm_num)
    (by norm_num) (by norm_num)
  rw [h, max_eq_right (show (2 : ℝ) ≤ 4 by norm_num)]

/-! ## Claim C2 -/

/-- Claim C2: for every input matrix, `findMaxScale` returns a finite,
never-negative, never-NaN value (this holds for all inputs, in particular
all finite ones); and on the overflow-prone matrix from skbug.com/4718
(linear entries of magnitude about `1e36`-`1e37`) it returns exactly `0`
rather than Inf or NaN. -/
theorem findMaxScale_nonneg_and_overflow_safe :
    (∀ m : Mat2D, ∃ r : ℝ, m.findMaxScale = FV.fin r ∧ 0 ≤ r ∧
      m.findMaxScale.isNaN = false) ∧
    (Mat2D.mk (.fin 2.39394089e36) (.fin 3.9159619e36) (.fin 8.85347779e36)
      (.fin 1.44823453e37) (.fin 9.26526204e36) (.fin 1.51559342e37)).findMaxScale =
      FV.fin 0 := by
  constructor
  · intro m
    rcases he : m.eigMax with x | _ | _ | _
    · by_cases hx : x < 0
      · have h0 : m.findMaxScale = FV.fin 0 := by
          rw [Mat2D.findMaxScale, he]
          show (if x < 0 then _ else _) = _
          rw [if_pos hx]
        exact ⟨0, h0, le_refl 0, by rw [h0]; rfl⟩
      · have h0 := findMaxScale_of_eig_fin he (not_lt.mp hx)
        exact ⟨Real.sqrt x, h0, Real.sqrt_nonneg x, by rw [h0]; rfl⟩
    · have h0 : m.findMaxScale = FV.fin 0 := by rw [Mat2D.findMaxScale, he]
      exact ⟨0, h0, le_refl 0, by rw [h0]; rfl⟩
    · have h0 : m.findMaxScale = FV.fin 0 := by rw [Mat2D.findMaxScale, he]
      exact ⟨0, h0, le_refl 0, by rw [h0]; rfl⟩
    · have h0 : m.findMaxScale = FV.fin 0 := by rw [Mat2D.findMaxScale, he]
      exact ⟨0, h0, le_refl 0, by rw [h0]; rfl⟩
  · set m : Mat2D := Mat2D.mk (.fin 2.39394089e36) (.fin 3.9159619e36)
      (.fin 8.85347779e36) (.fin 1.44823453e37) (.fin 9.26526204e36)
      (.fin 1.51559342e37) with hm
    have e00 : m.s00 = FV.inf := by
      show FV.add (FV.mul (.fin 2.39394089e36) (.fin 2.39394089e36))
        (FV.mul (.fin 3.9159619e36) (.fin 3.9159619e36)) = _
      rw [mulFF_inf (by rw [FMAX]; norm_num), mulFF_inf (by rw [FMAX]; norm_num)]
      rfl
    have e01 : m.s01 = FV.inf := by
      show FV.add (FV.mul (.fin 2.39394089e36) (.fin 8.85347779e36))
        (FV.mul (.fin 3.9159619e36) (.fin 1.44823453e37)) = _
      rw [mulFF_inf (by rw [FMAX]; norm_num), mulFF_inf (by rw [FMAX]; norm_num)]
      rfl
    have e11 : m.s11 = FV.inf := by
      show FV.add (FV.mul (.fin 8.85347779e36) (.fin 8.85347779e36))
        (FV.mul (.fin 1.44823453e37) (.fin 1.44823453e37)) = _
      rw [mulFF_inf (by rw [FMAX]; norm_num), mulFF_inf (by rw [FMAX]; norm_num)]
      rfl
    have eT : m.traceS = FV.inf := by
      rw [Mat2D.traceS, e00, e11]
      rfl
    have eDet : m.detS = FV.nan := by
      rw [Mat2D.detS, e00, e01, e11]
      rfl
    have eDisc : m.discS = FV.nan := by
      rw [Mat2D.discS, eT, eDet]
      rfl
    have eEig : m.eigMax = FV.nan := by
      rw [Mat2D.eigMax, eT, eDisc]
      rfl
    exact findMaxScale_of_eig_nan eEig

/-! ## Claim C3 -/

/-- Claim C3: `findMaxScale` depends only on the 2x2 linear submatrix
`(a, b, c, d)`: matrices with equal linear parts give equal results
whatever the translation column holds (even NaN or Inf); in particular
the matrix `(0, 3, 6, 0, NaN, Inf)` yields `6`, and every pure
translation yields `1`. -/
theorem findMaxScale_ignores_translation :
    (∀ m1 m2 : Mat2D, m1.a = m2.a → m1.b = m2.b → m1.c = m2.c → m1.d = m2.d →
      m1.findMaxScale = m2.findMaxScale) ∧
    (Mat2D.mk (.fin 0) (.fin 3) (.fin 6) (.fin 0) FV.nan FV.inf).findMaxScale =
      FV.fin 6 ∧
    (∀ x y : ℝ, (Mat2D.fromTranslate x y).findMaxScale = FV.fin 1) := by
  refine ⟨?_, ?_, ?_⟩
  · intro m1 m2 h1 h2 h3 h4
    cases m1
    cases m2
    simp only at h1 h2 h3 h4
    subst h1
    subst h2
    subst h3
    subst h4
    rfl
  · have h := findMaxScale_fin 0 3 6 0 FV.nan FV.inf (by norm_num) (by norm_num)
      (by norm_num) (by norm_num)
    rw [h, lamMax]
    rw [show (((0 : ℝ) ^ 2 + 3 ^ 2) - (6 ^ 2 + 0 ^ 2)) ^ 2 + 4 * (0 * 6 + 3 * 0) ^ 2 =
        27 ^ 2 from by norm_num]
    rw [Real.sqrt_sq (by norm_num : (0 : ℝ) ≤ 27)]
    rw [show (((0 : ℝ) ^ 2 + 3 ^ 2) + (6 ^ 2 + 0 ^ 2) + 27) / 2 = 6 ^ 2 from by norm_num]
    rw [Real.sqrt_sq (by norm_num : (0 : ℝ) ≤ 6)]
  · intro x y
    have h : (Mat2D.fromTranslate x y).findMaxScale = FV.fin (Real.sqrt (lamMax 1 0 0 1)) :=
      findMaxScale_fin 1 0 0 1 (.fin x) (.fin y) (by norm_num) (by norm_num)
        (by norm_num) (by norm_num)
    rw [h, lamMax]
    norm_num [Real.sqrt_one]

/-- Claim C3 witness: the translation-independence part applied to the
pure translation `Translate(10, -5)` and the identity, which share the
linear part `(1, 0, 0, 1)`. -/
theorem findMaxScale_ignores_translation_witness :
    (Mat2D.fromTranslate 10 (-5)).findMaxScale = Mat2D.identity.findMaxScale :=
  findMaxScale_ignores_translation.1 (Mat2D.fromTranslate 10 (-5)) Mat2D.identity
    rfl rfl rfl rfl

/-! ## Claim C5 -/

/-- Claim C5: for every rotation angle, `findMaxScale` of the pure
rotation matrix is within `EPSILON = 1/4096` of `1` (in the idealized
model it is exactly `1`); and for `Scale(1/4, 1/2)` composed with a
90-degree rotation, `findMaxScale` returns exactly `1/2` — the larger
singular value survives the rotation. -/
theorem findMaxScale_rotation :
    (∀ theta : ℝ, ∃ r : ℝ, (Mat2D.fromRotation theta).findMaxScale = FV.fin r ∧
      nearly_equal 1 r EPSILON) ∧
    (Mat2D.mul (Mat2D.fromScale (1 / 4) (1 / 2))
      (Mat2D.fromRotation (Real.pi / 2))).findMaxScale = FV.fin (1 / 2) := by
  constructor
  · intro theta
    have hc : |Real.cos theta| ≤ 10 ^ 9 := (Real.abs_cos_le_one theta).trans (by norm_num)
    have hs : |Real.sin theta| ≤ 10 ^ 9 := (Real.abs_sin_le_one theta).trans (by norm_num)
    have hns : |-Real.sin theta| ≤ 10 ^ 9 := by rw [abs_neg]; exact hs
    have h : (Mat2D.fromRotation theta).findMaxScale =
        FV.fin (Real.sqrt (lamMax (Real.cos theta) (Real.sin theta)
          (-Real.sin theta) (Real.cos theta))) :=
      findMaxScale_fin (Real.cos theta) (Real.sin theta) (-Real.sin theta)
        (Real.cos theta) (.fin 0) (.fin 0) hc hs hns hc
    have hL : lamMax (Real.cos theta) (Real.sin theta) (-Real.sin theta)
        (Real.cos theta) = 1 := by
      rw [lamMax]
      rw [show ((Real.cos theta ^ 2 + Real.sin theta ^ 2) -
          ((-Real.sin theta) ^ 2 + Real.cos theta ^ 2)) ^ 2 +
          4 * (Real.cos theta * -Real.sin theta + Real.sin theta * Real.cos theta) ^ 2 =
          0 from by ring]
      rw [Real.sqrt_zero]
      rw [show ((-Real.sin theta) ^ 2 + Real.cos theta ^ 2) =
          Real.sin theta ^ 2 + Real.cos theta ^ 2 from by ring]
      rw [Real.cos_sq_add_sin_sq, Real.sin_sq_add_cos_sq]
      norm_num
    refine ⟨_, h, ?_⟩
    rw [hL, Real.sqrt_one]
    simp [nearly_equal, nearly_zero, EPSILON]
  · have hcos : Real.cos (Real.pi / 2) = 0 := Real.cos_pi_div_two
    have hsin : Real.sin (Real.pi / 2) = 1 := Real.sin_pi_div_two
    have hM : Mat2D.mul (Mat2D.fromScale (1 / 4) (1 / 2))
        (Mat2D.fromRotation (Real.pi / 2)) =
        Mat2D.mk (.fin 0) (.fin (1 / 2)) (.fin (-(1 / 4))) (.fin 0) (.fin 0) (.fin 0) := by
      show Mat2D.mk
        (FV.add (FV.mul (.fin (1 / 4)) (.fin (Real.cos (Real.pi / 2))))
          (FV.mul (.fin 0) (.fin (Real.sin (Real.pi / 2)))))
        (FV.add (FV.mul (.fin 0) (.fin (Real.cos (Real.pi / 2))))
          (FV.mul (.fin (1 / 2)) (.fin (Real.sin (Real.pi / 2)))))
        (FV.add (FV.mul (.fin (1 / 4)) (.fin (-Real.sin (Real.pi / 2))))
          (FV.mul (.fin 0) (.fin (Real.cos (Real.pi / 2)))))
        (FV.add (FV.mul (.fin 0) (.fin (-Real.sin (Real.pi / 2))))
          (FV.mul (.fin (1 / 2)) (.fin (Real.cos (Real.pi / 2)))))
        (FV.add (FV.add (FV.mul (.fin (1 / 4)) (.fin 0)) (FV.mul (.fin 0) (.fin 0))) (.fin 0))
        (FV.add (FV.add (FV.mul (.fin 0) (.fin 0)) (FV.mul (.fin (1 / 2)) (.fin 0))) (.fin 0)) = _
      rw [hcos, hsin]
      congr 1
      · rw [mulFF (by rw [FMAX, abs_le]; norm_num), mulFF (by rw [FMAX, abs_le]; norm_num),
          addFF (by rw [FMAX, abs_le]; norm_num)]
        norm_num
      · rw [mulFF (by rw [FMAX, abs_le]; norm_num), mulFF (by rw [FMAX, abs_le]; norm_num),
          addFF (by rw [FMAX, abs_le]; norm_num)]
        norm_num
      · rw [mulFF (by rw [FMAX, abs_le]; norm_num), mulFF (by rw [FMAX, abs_le]; norm_num),
          addFF (by rw [FMAX, abs_le]; norm_num)]
        norm_num
      · rw [mulFF (by rw [FMAX, abs_le]; norm_num), mulFF (by rw [FMAX, abs_le]; norm_num),
          addFF (by rw [FMAX, abs_le]; norm_num)]
        norm_num
      · rw [mulFF (by rw [FMAX, abs_le]; norm_num), mulFF (by rw [FMAX, abs_le]; norm_num),
          addFF (by rw [FMAX, abs_le]; norm_num), addFF (by rw [FMAX, abs_le]; norm_num)]
        norm_num
      · rw [mulFF (by rw [FMAX, abs_le]; norm_num), mulFF (by rw [FMAX, abs_le]; norm_num),
          addFF (by rw [FMAX, abs_le]; norm_num), addFF (by rw [FMAX, abs_le]; norm_num)]
        norm_num
    rw [hM]
    have h := findMaxScale_fin 0 (1 / 2) (-(1 / 4)) 0 (.fin 0) (.fin 0)
      (by rw [abs_le]; norm_num) (by rw [abs_le]; norm_num) (by rw [abs_le]; norm_num)
      (by rw [abs_le]; norm_num)
    rw [h, lamMax]
    rw [show (((0 : ℝ) ^ 2 + (1 / 2) ^ 2) - ((-(1 / 4)) ^ 2 + 0 ^ 2)) ^ 2 +
        4 * (0 * -(1 / 4) + 1 / 2 * 0) ^ 2 = (3 / 16) ^ 2 from by norm_num]
    rw [Real.sqrt_sq (by norm_num : (0 : ℝ) ≤ 3 / 16)]
    rw [show (((0 : ℝ) ^ 2 + (1 / 2) ^ 2) + ((-(1 / 4)) ^ 2 + 0 ^ 2) + 3 / 16) / 2 =
        (1 / 2) ^ 2 from by norm_num]
    rw [Real.sqrt_sq (by norm_num : (0 : ℝ) ≤ 1 / 2)]

/-! ## Claim C4 -/

theorem sum_sq_pos_of_det_ne_zero {a b c d : ℝ} (hdet : a * d - b * c ≠ 0) :
    (0 : ℝ) < a ^ 2 + b ^ 2 + c ^ 2 + d ^ 2 := by
  by_contra hle
  push_neg at hle
  have ha0 : a = 0 := by nlinarith [sq_nonneg a, sq_nonneg b, sq_nonneg c, sq_nonneg d]
  have hb0 : b = 0 := by nlinarith [sq_nonneg a, sq_nonneg b, sq_nonneg c, sq_nonneg d]
  have hc0 : c = 0 := by nlinarith [sq_nonneg a, sq_nonneg b, sq_nonneg c, sq_nonneg d]
  have hd0 : d = 0 := by nlinarith [sq_nonneg a, sq_nonneg b, sq_nonneg c, sq_nonneg d]
  apply hdet
  rw [ha0, hb0, hc0, hd0]
  ring

/-- Claim C4: for every matrix whose finite linear entries stay in the
no-overflow range (as every composition of the test's invertible base
matrices does) and whose linear part is invertible, `findMaxScale`
returns a positive value `s` such that every unit vector is stretched by
a factor strictly below `1.05 * s`, and some unit vector is stretched by
at least `0.97 * s` (ratio exactly `1` in the idealized model): the
bound is tight. -/
theorem findMaxScale_tight_bound (a b c d : ℝ) (tx ty : FV ℝ)
    (ha : |a| ≤ 10 ^ 9) (hb : |b| ≤ 10 ^ 9) (hc : |c| ≤ 10 ^ 9) (hd : |d| ≤ 10 ^ 9)
    (hdet : a * d - b * c ≠ 0) :
    ∃ s : ℝ,
      (Mat2D.mk (.fin a) (.fin b) (.fin c) (.fin d) tx ty).findMaxScale = FV.fin s ∧
      0 < s ∧
      (∀ vx vy : ℝ, vx ^ 2 + vy ^ 2 = 1 →
        Real.sqrt ((a * vx + c * vy) ^ 2 + (b * vx + d * vy) ^ 2) / s < 1.05) ∧
      (∃ vx vy : ℝ, vx ^ 2 + vy ^ 2 = 1 ∧
        0.97 ≤ Real.sqrt ((a * vx + c * vy) ^ 2 + (b * vx + d * vy) ^ 2) / s) := by
  have hlam := findMaxScale_fin a b c d tx ty ha hb hc hd
  obtain ⟨lam, hgl⟩ : ∃ t : ℝ, lamMax a b c d = t := ⟨_, rfl⟩
  rw [hgl] at hlam
  have hD : (0 : ℝ) ≤ ((a ^ 2 + b ^ 2) - (c ^ 2 + d ^ 2)) ^ 2 + 4 * (a * c + b * d) ^ 2 := by
    positivity
  have hsq : Real.sqrt (((a ^ 2 + b ^ 2) - (c ^ 2 + d ^ 2)) ^ 2 + 4 * (a * c + b * d) ^ 2) ^ 2 =
      ((a ^ 2 + b ^ 2) - (c ^ 2 + d ^ 2)) ^ 2 + 4 * (a * c + b * d) ^ 2 :=
    Real.sq_sqrt hD
  have hsqnn : (0 : ℝ) ≤
      Real.sqrt (((a ^ 2 + b ^ 2) - (c ^ 2 + d ^ 2)) ^ 2 + 4 * (a * c + b * d) ^ 2) :=
    Real.sqrt_nonneg _
  have hlamexp : lam = ((a ^ 2 + b ^ 2) + (c ^ 2 + d ^ 2) +
      Real.sqrt (((a ^ 2 + b ^ 2) - (c ^ 2 + d ^ 2)) ^ 2 + 4 * (a * c + b * d) ^ 2)) / 2 := by
    rw [← hgl, lamMax]
  -- the linear part has some nonzero entry, so the trace of M^T M is positive
  have hsum_pos : (0 : ℝ) < a ^ 2 + b ^ 2 + c ^ 2 + d ^ 2 := sum_sq_pos_of_det_ne_zero hdet
  have hlampos : 0 < lam := by
    rw [hlamexp]
    linarith [hsqnn, hsum_pos]
  -- the characteristic identity of the larger eigenvalue
  have hchar : lam ^ 2 - ((a ^ 2 + b ^ 2) + (c ^ 2 + d ^ 2)) * lam +
      ((a ^ 2 + b ^ 2) * (c ^ 2 + d ^ 2) - (a * c + b * d) ^ 2) = 0 := by
    rw [hlamexp]
    linear_combination (1 / 4 : ℝ) * hsq
  -- upper bound: no unit vector is stretched beyond lam
  have hQle : ∀ vx vy : ℝ, vx ^ 2 + vy ^ 2 = 1 →
      (a * vx + c * vy) ^ 2 + (b * vx + d * vy) ^ 2 ≤ lam := by
    intro vx vy hv
    have hid : (((a ^ 2 + b ^ 2) - (c ^ 2 + d ^ 2)) ^ 2 + 4 * (a * c + b * d) ^ 2) *
        ((vx ^ 2 + vy ^ 2) ^ 2) -
        (2 * ((a * vx + c * vy) ^ 2 + (b * vx + d * vy) ^ 2) -
          ((a ^ 2 + b ^ 2) + (c ^ 2 + d ^ 2)) * (vx ^ 2 + vy ^ 2)) ^ 2 =
        (((a ^ 2 + b ^ 2) - (c ^ 2 + d ^ 2)) * (2 * vx * vy) -
          2 * (a * c + b * d) * (vx ^ 2 - vy ^ 2)) ^ 2 := by
      ring
    rw [hv] at hid
    have hkey : (2 * ((a * vx + c * vy) ^ 2 + (b * vx + d * vy) ^ 2) -
        ((a ^ 2 + b ^ 2) + (c ^ 2 + d ^ 2))) ^ 2 ≤
        ((a ^ 2 + b ^ 2) - (c ^ 2 + d ^ 2)) ^ 2 + 4 * (a * c + b * d) ^ 2 := by
      linarith [hid, sq_nonneg (((a ^ 2 + b ^ 2) - (c ^ 2 + d ^ 2)) * (2 * vx * vy) -
        2 * (a * c + b * d) * (vx ^ 2 - vy ^ 2))]
    have h2 : 2 * ((a * vx + c * vy) ^ 2 + (b * vx + d * vy) ^ 2) -
        ((a ^ 2 + b ^ 2) + (c ^ 2 + d ^ 2)) ≤
        Real.sqrt (((a ^ 2 + b ^ 2) - (c ^ 2 + d ^ 2)) ^ 2 + 4 * (a * c + b * d) ^ 2) := by
      rcases le_or_lt (2 * ((a * vx + c * vy) ^ 2 + (b * vx + d * vy) ^ 2) -
          ((a ^ 2 + b ^ 2) + (c ^ 2 + d ^ 2))) 0 with h | h
      · linarith
      · exact le_sqrt_of_sq h.le hkey
    rw [hlamexp]
    linarith
  -- tightness: an eigenvector of the larger eigenvalue achieves lam
  have hQex : ∃ vx vy : ℝ, vx ^ 2 + vy ^ 2 = 1 ∧
      (a * vx + c * vy) ^ 2 + (b * vx + d * vy) ^ 2 = lam := by
    by_cases hB : a * c + b * d = 0
    · rcases le_total (c ^ 2 + d ^ 2) (a ^ 2 + b ^ 2) with hAC | hAC
      · refine ⟨1, 0, by norm_num, ?_⟩
        rw [hlamexp]
        rw [show ((a ^ 2 + b ^ 2) - (c ^ 2 + d ^ 2)) ^ 2 + 4 * (a * c + b * d) ^ 2 =
            ((a ^ 2 + b ^ 2) - (c ^ 2 + d ^ 2)) ^ 2 from by rw [hB]; ring]
        rw [Real.sqrt_sq_eq_abs, abs_of_nonneg (by linarith)]
        ring
      · refine ⟨0, 1, by norm_num, ?_⟩
        rw [hlamexp]
        rw [show ((a ^ 2 + b ^ 2) - (c ^ 2 + d ^ 2)) ^ 2 + 4 * (a * c + b * d) ^ 2 =
            ((a ^ 2 + b ^ 2) - (c ^ 2 + d ^ 2)) ^ 2 from by rw [hB]; ring]
        rw [Real.sqrt_sq_eq_abs, abs_of_nonpos (by linarith)]
        ring
    · have hB2 : (0 : ℝ) < (a * c + b * d) ^ 2 := pow_two_pos_of_ne_zero hB
      have hnarg : (0 : ℝ) < (a * c + b * d) ^ 2 + (lam - (a ^ 2 + b ^ 2)) ^ 2 := by
        linarith [hB2, sq_nonneg (lam - (a ^ 2 + b ^ 2))]
      have hn2 : Real.sqrt ((a * c + b * d) ^ 2 + (lam - (a ^ 2 + b ^ 2)) ^ 2) ^ 2 =
          (a * c + b * d) ^ 2 + (lam - (a ^ 2 + b ^ 2)) ^ 2 :=
        Real.sq_sqrt hnarg.le
      have hnpos : (0 : ℝ) <
          Real.sqrt ((a * c + b * d) ^ 2 + (lam - (a ^ 2 + b ^ 2)) ^ 2) :=
        Real.sqrt_pos.mpr hnarg
      refine ⟨(a * c + b * d) / Real.sqrt ((a * c + b * d) ^ 2 + (lam - (a ^ 2 + b ^ 2)) ^ 2),
        (lam - (a ^ 2 + b ^ 2)) /
          Real.sqrt ((a * c + b * d) ^ 2 + (lam - (a ^ 2 + b ^ 2)) ^ 2), ?_, ?_⟩
      · field_simp
      · field_simp
        linear_combination ((a ^ 2 + b ^ 2) - lam) * hchar
  refine ⟨Real.sqrt lam, hlam, Real.sqrt_pos.mpr hlampos, ?_, ?_⟩
  · intro vx vy hv
    have h1 := Real.sqrt_le_sqrt (hQle vx vy hv)
    have h2 : Real.sqrt ((a * vx + c * vy) ^ 2 + (b * vx + d * vy) ^ 2) /
        Real.sqrt lam ≤ 1 :=
      (div_le_one (Real.sqrt_pos.mpr hlampos)).mpr h1
    calc Real.sqrt ((a * vx + c * vy) ^ 2 + (b * vx + d * vy) ^ 2) /
        Real.sqrt lam ≤ 1 := h2
    _ < 1.05 := by norm_num
  · obtain ⟨vx, vy, hv, hQ⟩ := hQex
    refine ⟨vx, vy, hv, ?_⟩
    rw [hQ, div_self (Real.sqrt_pos.mpr hlampos).ne']
    norm_num

/-- Claim C4 witness: the tightness theorem applied at the identity
linear part `(1, 0, 0, 1)`. -/
theorem findMaxScale_tight_bound_witness :
    ∃ s : ℝ,
      (Mat2D.mk (.fin 1) (.fin 0) (.fin 0) (.fin 1) (.fin 0) (.fin 0)).findMaxScale =
        FV.fin s ∧
      0 < s ∧
      (∀ vx vy : ℝ, vx ^ 2 + vy ^ 2 = 1 →
        Real.sqrt ((1 * vx + 0 * vy) ^ 2 + (0 * vx + 1 * vy) ^ 2) / s < 1.05) ∧
      (∃ vx vy : ℝ, vx ^ 2 + vy ^ 2 = 1 ∧
        0.97 ≤ Real.sqrt ((1 * vx + 0 * vy) ^ 2 + (0 * vx + 1 * vy) ^ 2) / s) :=
  findMaxScale_tight_bound 1 0 0 1 (.fin 0) (.fin 0) (by norm_num) (by norm_num)
    (by norm_num) (by norm_num) (by norm_num)

/-! ## Claim C6 -/

/-- Claim C6: for every lane of `simd::min(a, b)` and `simd::max(a, b)`,
if exactly one of the two operand lanes is NaN, the result is the
non-NaN operand, and this holds in both argument orders. -/
theorem simd_min_max_nan_aware {n : ℕ} (a b : simd.gvec n) (i : Fin n)
    (hna : (a i).isNaN = true) (hnb : (b i).isNaN = false) :
    simd.min a b i = b i ∧ simd.min b a i = b i ∧
    simd.max a b i = b i ∧ simd.max b a i = b i := by
  have ha : a i = FV.nan := by
    revert hna
    cases a i <;> simp [FV.isNaN]
  simp only [simd.min, simd.max, simd.if_then_else, simd.orv, simd.ltv, simd.isnan, ha]
  cases hbv : b i
  · simp [FV.lt, FV.isNaN]
  · simp [FV.lt, FV.isNaN]
  · simp [FV.lt, FV.isNaN]
  · rw [hbv] at hnb
    exact absurd hnb (by simp [FV.isNaN])

/-- Claim C6 witness: `min(NaN, 5) = 5`, `min(5, NaN) = 5`,
`max(NaN, 5) = 5`, `max(5, NaN) = 5` on width-1 vectors. -/
theorem simd_min_max_nan_aware_witness :
    simd.min (fun _ => FV.nan : simd.gvec 1) (fun _ => FV.fin 5) (0 : Fin 1) = FV.fin 5 ∧
    simd.min (fun _ => FV.fin 5 : simd.gvec 1) (fun _ => FV.nan) (0 : Fin 1) = FV.fin 5 ∧
    simd.max (fun _ => FV.nan : simd.gvec 1) (fun _ => FV.fin 5) (0 : Fin 1) = FV.fin 5 ∧
    simd.max (fun _ => FV.fin 5 : simd.gvec 1) (fun _ => FV.nan) (0 : Fin 1) = FV.fin 5 := by
  obtain ⟨h1, h2, h3, h4⟩ := simd_min_max_nan_aware (n := 1)
    (fun _ => FV.nan) (fun _ => FV.fin 5) 0 rfl rfl
  exact ⟨h1, h2, h3, h4⟩

/-! ## Claim C7 -/

/-- Claim C7 (amended): `clamp(x, lo, hi)` equals `min(max(lo, x), hi)`
lane-wise; per lane it returns `lo` when `x` is NaN provided the bounds
are ordered (`lo <= hi`, with `lo` not NaN); it returns `hi` whenever
`hi <= lo` (finite bounds) regardless of `x`; and a NaN bound imposes no
constraint — `clamp(x, NaN, hi) = min(x, hi)` and `clamp(x, lo, NaN) =
max(lo, x)`.  (The original unconditional "returns lo when x is NaN"
fails when `hi < lo`, where the hi-rule wins; see the counterexample.) -/
theorem simd_clamp_spec {n : ℕ} (x lo hi : simd.gvec n) (i : Fin n) :
    simd.clamp x lo hi = simd.min (simd.max lo x) hi ∧
    (∀ l h : ℚ, x i = FV.nan → lo i = FV.fin l → hi i = FV.fin h → l ≤ h →
      simd.clamp x lo hi i = FV.fin l) ∧
    (∀ l h : ℚ, lo i = FV.fin l → hi i = FV.fin h → h ≤ l →
      simd.clamp x lo hi i = FV.fin h) ∧
    (lo i = FV.nan → simd.clamp x lo hi i = simd.min x hi i) ∧
    (hi i = FV.nan → simd.clamp x lo hi i = simd.max lo x i) := by
  refine ⟨rfl, ?_, ?_, ?_, ?_⟩
  · intro l h hx hl hh hle
    have hmax : simd.max lo x i = FV.fin l := by
      show (if FV.lt (lo i) (x i) || (lo i).isNaN then x i else lo i) = _
      rw [hx, hl]
      simp [FV.lt, FV.isNaN]
    show (if FV.lt (hi i) (simd.max lo x i) || (simd.max lo x i).isNaN
      then hi i else simd.max lo x i) = _
    rw [hmax, hh]
    simp [FV.lt, FV.isNaN, not_lt.mpr hle]
  · intro l h hl hh hle
    show (if FV.lt (hi i) (simd.max lo x i) || (simd.max lo x i).isNaN
      then hi i else simd.max lo x i) = _
    rw [hh]
    cases hxv : x i
    case fin v =>
      by_cases hlv : l < v
      · have hmax : simd.max lo x i = FV.fin v := by
          show (if FV.lt (lo i) (x i) || (lo i).isNaN then x i else lo i) = _
          rw [hl, hxv]
          simp [FV.lt, FV.isNaN, hlv]
        rw [hmax]
        simp [FV.lt, FV.isNaN, lt_of_le_of_lt hle hlv]
      · have hmax : simd.max lo x i = FV.fin l := by
          show (if FV.lt (lo i) (x i) || (lo i).isNaN then x i else lo i) = _
          rw [hl, hxv]
          simp [FV.lt, FV.isNaN, hlv]
        rw [hmax]
        rcases lt_or_eq_of_le hle with hlt | heq
        · simp [FV.lt, FV.isNaN, hlt]
        · simp [FV.lt, FV.isNaN, heq]
    case inf =>
      have hmax : simd.max lo x i = FV.inf := by
        show (if FV.lt (lo i) (x i) || (lo i).isNaN then x i else lo i) = _
        rw [hl, hxv]
        simp [FV.lt, FV.isNaN]
      rw [hmax]
      simp [FV.lt, FV.isNaN]
    case ninf =>
      have hmax : simd.max lo x i = FV.fin l := by
        show (if FV.lt (lo i) (x i) || (lo i).isNaN then x i else lo i) = _
        rw [hl, hxv]
        simp [FV.lt, FV.isNaN]
      rw [hmax]
      rcases lt_or_eq_of_le hle with hlt | heq
      · simp [FV.lt, FV.isNaN, hlt]
      · simp [FV.lt, FV.isNaN, heq]
    case nan =>
      have hmax : simd.max lo x i = FV.fin l := by
        show (if FV.lt (lo i) (x i) || (lo i).isNaN then x i else lo i) = _
        rw [hl, hxv]
        simp [FV.lt, FV.isNaN]
      rw [hmax]
      rcases lt_or_eq_of_le hle with hlt | heq
      · simp [FV.lt, FV.isNaN, hlt]
      · simp [FV.lt, FV.isNaN, heq]
  · intro hlo
    suffices hmax : simd.max lo x i = x i by
      show (if FV.lt (hi i) (simd.max lo x i) || (simd.max lo x i).isNaN
        then hi i else simd.max lo x i) =
        (if FV.lt (hi i) (x i) || (x i).isNaN then hi i else x i)
      rw [hmax]
    show (if FV.lt (lo i) (x i) || (lo i).isNaN then x i else lo i) = x i
    rw [hlo]
    cases x i <;> simp [FV.lt, FV.isNaN]
  · intro hhi
    show (if FV.lt (hi i) (simd.max lo x i) || (simd.max lo x i).isNaN
      then hi i else simd.max lo x i) = simd.max lo x i
    rw [hhi]
    cases hm : simd.max lo x i <;> simp [FV.lt, FV.isNaN]

/-- Claim C7 counterexample: with `x = NaN`, `lo = 1`, `hi = 0` the lane
result of `clamp` is `hi = 0`, not `lo = 1`, refuting the unconditional
"returns lo when x is NaN" rule. -/
theorem simd_clamp_nan_lo_cex :
    (fun _ => FV.nan : simd.gvec 1) (0 : Fin 1) = FV.nan ∧
    simd.clamp (fun _ => FV.nan) (fun _ => FV.fin 1) (fun _ => FV.fin 0) (0 : Fin 1) =
      FV.fin 0 ∧
    simd.clamp (fun _ => FV.nan) (fun _ => FV.fin 1) (fun _ => FV.fin 0) (0 : Fin 1) ≠
      (fun _ => FV.fin 1 : simd.gvec 1) (0 : Fin 1) := by
  refine ⟨rfl, by decide, by decide⟩

/-- Claim C7 witness: the amended rules applied at concrete lanes:
`clamp(NaN, 1, 2) = 1` (ordered bounds) and `clamp(10, 5, 3) = 3`
(inverted bounds return `hi`). -/
theorem simd_clamp_spec_witness :
    simd.clamp (fun _ => FV.nan) (fun _ => FV.fin 1) (fun _ => FV.fin 2) (0 : Fin 1) =
      FV.fin 1 ∧
    simd.clamp (fun _ => FV.fin 10) (fun _ => FV.fin 5) (fun _ => FV.fin 3) (0 : Fin 1) =
      FV.fin 3 := by
  constructor
  · exact (simd_clamp_spec (fun _ => FV.nan) (fun _ => FV.fin 1) (fun _ => FV.fin 2)
      0).2.1 1 2 rfl rfl rfl (by norm_num)
  · exact (simd_clamp_spec (fun _ => FV.fin 10) (fun _ => FV.fin 5) (fun _ => FV.fin 3)
      0).2.2.1 5 3 rfl rfl (by norm_num)

/-! ## Claim C8 -/

/-- Claim C8: `simd::mix(a, b, t)` computes exactly the formula
`(b - a) * t + a` per lane, and under the asserted precondition
`0 <= t < 1` (with lanes inside the float range) the result is the exact
value of that formula.  The endpoint `t == 1` is not special-cased by the
code (it would compute the same formula), which is why exact equality
with `b` at `t == 1` is not guaranteed under rounding. -/
theorem simd_mix_formula {n : ℕ} (a b : simd.gvec n) (t : FV ℚ) (i : Fin n)
    (av bv tv : ℚ) (hai : a i = FV.fin av) (hbi : b i = FV.fin bv) (ht : t = FV.fin tv)
    (ht0 : 0 ≤ tv) (ht1 : tv < 1) (hav : |av| ≤ 10 ^ 30) (hbv : |bv| ≤ 10 ^ 30) :
    simd.mix a b t i = FV.add (FV.mul (FV.sub (b i) (a i)) t) (a i) ∧
    simd.mix a b t i = FV.fin ((bv - av) * tv + av) := by
  have htv : |tv| ≤ 1 := by
    rw [abs_of_nonneg ht0]
    exact ht1.le
  refine ⟨rfl, ?_⟩
  show FV.add (FV.mul (FV.sub (b i) (a i)) t) (a i) = _
  rw [hai, hbi, ht]
  rw [subFF ((abs_sub_bound hbv hav).trans (by rw [FMAX]; norm_num))]
  rw [mulFF ((abs_mul_bound (abs_sub_bound hbv hav) htv).trans (by rw [FMAX]; norm_num))]
  exact addFF ((abs_add_bound (abs_mul_bound (abs_sub_bound hbv hav) htv) hav).trans
    (by rw [FMAX]; norm_num))

/-- Claim C8 witness: `mix(1, 3, 1/2) = 2` on width-1 vectors. -/
theorem simd_mix_formula_witness :
    simd.mix (fun _ => FV.fin 1) (fun _ => FV.fin 3) (FV.fin (1 / 2)) (0 : Fin 1) =
      FV.fin 2 := by
  have h := (simd_mix_formula (n := 1) (fun _ => FV.fin 1) (fun _ => FV.fin 3)
    (FV.fin (1 / 2)) 0 1 3 (1 / 2) rfl rfl rfl (by norm_num) (by norm_num)
    (by rw [abs_le]; norm_num) (by rw [abs_le]; norm_num)).2
  rw [h]
  norm_num

/-! ## Claim C9 -/

/-- Claim C9: `simd::abs` on `int32` vectors returns the elementwise
absolute value, except that the minimum representable value `-2^31` maps
to itself: the negation wraps modulo `2^32`, so `abs(INT32_MIN) ==
INT32_MIN` instead of undefined behavior. -/
theorem simd_absI_spec {n : ℕ} (x : simd.ivec n) (i : Fin n)
    (h1 : -(2 ^ 31) ≤ x i) (h2 : x i < 2 ^ 31) :
    simd.absI x i = if x i = -(2 ^ 31) then -(2 ^ 31) else |x i| := by
  show (if x i < 0 then simd.wrap32 (-(x i)) else x i) = _
  rcases lt_trichotomy (x i) 0 with hneg | hzero | hpos
  · rw [if_pos hneg]
    by_cases hmin : x i = -(2 ^ 31)
    · rw [if_pos hmin, hmin]
      decide
    · rw [if_neg hmin]
      show (-(x i) + 2 ^ 31) % 2 ^ 32 - 2 ^ 31 = |x i|
      rw [abs_of_neg hneg]
      omega
  · rw [hzero]
    decide
  · rw [if_neg (not_lt.mpr hpos.le), if_neg (by omega : ¬x i = -(2 ^ 31)),
      abs_of_pos hpos]

/-- Claim C9 witness: `abs(INT32_MIN) = INT32_MIN` on a width-1 vector. -/
theorem simd_absI_spec_witness :
    simd.absI (fun _ => -(2 ^ 31) : simd.ivec 1) (0 : Fin 1) = -(2 ^ 31) := by
  have h := simd_absI_spec (n := 1) (fun _ => -(2 ^ 31)) 0 (by norm_num) (by norm_num)
  rw [h, if_pos rfl]

/-! ## Claim C10 -/

theorem add_commF (a b : FV α) : FV.add a b = FV.add b a := by
  cases a <;> cases b <;> try rfl
  show clampF _ = clampF _
  rw [add_comm]

/-- Claim C10: the scalar template `lerp(a, b, t) = a + (b - a) * t` and
the SIMD `mix(a, b, t) = (b - a) * t + a` compute equal float results
lane-wise on the mix precondition domain `0 <= t < 1` (the two differ
only in the order of the final addition, and float addition is
commutative). -/
theorem lerp_mix_agree {n : ℕ} (a b : simd.gvec n) (i : Fin n) (tv : ℚ)
    (ht0 : 0 ≤ tv) (ht1 : tv < 1) :
    simd.mix a b (FV.fin tv) i = lerp (a i) (b i) (FV.fin tv) := by
  show FV.add (FV.mul (FV.sub (b i) (a i)) (FV.fin tv)) (a i) =
    FV.add (a i) (FV.mul (FV.sub (b i) (a i)) (FV.fin tv))
  exact add_commF _ _

/-- Claim C10 witness: `mix(1, 3, 1/2)` agrees with `lerp(1, 3, 1/2)` on a
width-1 vector. -/
theorem lerp_mix_agree_witness :
    simd.mix (fun _ => FV.fin 1) (fun _ => FV.fin 3) (FV.fin (1 / 2)) (0 : Fin 1) =
      lerp (FV.fin 1) (FV.fin 3) (FV.fin (1 / 2)) :=
  lerp_mix_agree (fun _ => FV.fin 1) (fun _ => FV.fin 3) 0 (1 / 2)
    (by norm_num) (by norm_num)

end Rive
